import Mathlib

/-!
Verification of the session-recording blob ingester
(`session-recordings-consumer-v2.ts`, class `SessionRecordingIngesterV2`).

The consumer's own logic (`consume`, `parseKafkaMessage`, `handleEachBatch`,
`commitOffset`, `onRevokePartitions`, `flushAllReadySessions`,
`destroySessions`) is translated directly from the source file.  The
supporting services whose source files are not part of this snapshot
(`OffsetHighWaterMarker`, `SessionManager` / `SessionBuffer`, the
`ReplayEventsIngester`) are modelled from the specification document and
marked as such in their doc comments.

Offsets and Kafka timestamps are modelled as `Nat` (they are non-negative
64-bit integers far from overflow in practice).  JavaScript truthiness of
possibly-absent numbers and strings is modelled explicitly where the source
relies on it (`!message.timestamp`, `!messagePayload.token`, `|| 0`,
`|| Infinity`, `?? offset`).
-/

namespace SessionRecording

/-- Drop causes recorded by `eventDroppedCounter` in `consume`. -/
inductive DropCause
  | high_water_mark
  | high_water_mark_partition
  deriving DecidableEq, Repr

/-- A `(topic, partition)` pair as used by the rebalance callbacks. -/
structure TopicPartition where
  topic : String
  partition : Nat
  deriving DecidableEq, Repr

/-- The `metadata` field of an `IncomingRecordingMessage`: copied from the
raw Kafka message's partition, topic, offset and timestamp. -/
structure MsgMetadata where
  topic : String
  partition : Nat
  offset : Nat
  timestamp : Nat
  deriving DecidableEq, Repr

/-- A parsed recording message (`IncomingRecordingMessage` in `types.ts`).
`session_id` is `Option`al because `parseKafkaMessage` copies
`event.properties?.$session_id` without checking its presence.  The opaque
snapshot events are modelled as a list of numeric payload identifiers. -/
structure IncomingRecordingMessage where
  metadata : MsgMetadata
  team_id : Nat
  distinct_id : String
  session_id : Option String
  window_id : Option String
  events : List Nat
  deriving DecidableEq, Repr

/-- Modelled from the spec: `SessionBuffer` metadata — oldest/newest Kafka
timestamps, lowest/highest offsets, event count and byte size (byte sizes
are abstracted to one unit per snapshot event; only threshold comparisons
depend on them).  The temp-file handle and realtime tail are external
resources and are not part of the state relevant to the claims. -/
structure SessionBuffer where
  oldestKafkaTimestamp : Option Nat
  newestKafkaTimestamp : Option Nat
  lowestOffset : Option Nat
  highestOffset : Option Nat
  count : Nat
  sizeBytes : Nat
  deriving DecidableEq, Repr

/-- Modelled from the spec: a freshly reset (empty) `SessionBuffer` —
"file unlinked, counters zeroed". -/
def SessionBuffer.reset : SessionBuffer :=
  { oldestKafkaTimestamp := none
    newestKafkaTimestamp := none
    lowestOffset := none
    highestOffset := none
    count := 0
    sizeBytes := 0 }

/-- Modelled from the spec: `SessionBuffer.is_empty`. -/
def SessionBuffer.isEmpty (b : SessionBuffer) : Bool :=
  b.count == 0

/-- Modelled from the spec: a `SessionManager` owns one buffer and is bound
to one team, session, topic and partition for its lifetime.  Its source
file (`services/session-manager.ts`) is not part of this snapshot. -/
structure SessionManager where
  teamId : Nat
  sessionId : String
  partition : Nat
  topic : String
  buffer : SessionBuffer
  deriving DecidableEq, Repr

/-- Modelled from the spec: `get_lowest_offset()` returns the lowest
un-flushed offset, or null if the buffer is empty. -/
def SessionManager.getLowestOffset (m : SessionManager) : Option Nat :=
  m.buffer.lowestOffset

/-- Modelled from the spec: `SessionManager.add(msg)` delegates to
`SessionBuffer.append`, updating offsets, timestamps, count and size.
(The optional size-triggered background flush it may kick off is not part
of any claim and is elided.) -/
def SessionManager.add (m : SessionManager) (msg : IncomingRecordingMessage) :
    SessionManager :=
  let b := m.buffer
  { m with
    buffer :=
      { oldestKafkaTimestamp :=
          some (match b.oldestKafkaTimestamp with
                | some t0 => min t0 msg.metadata.timestamp
                | none => msg.metadata.timestamp)
        newestKafkaTimestamp :=
          some (match b.newestKafkaTimestamp with
                | some t0 => max t0 msg.metadata.timestamp
                | none => msg.metadata.timestamp)
        lowestOffset :=
          some (match b.lowestOffset with
                | some l => min l msg.metadata.offset
                | none => msg.metadata.offset)
        highestOffset :=
          some (match b.highestOffset with
                | some h => max h msg.metadata.offset
                | none => msg.metadata.offset)
        count := b.count + msg.events.length
        sizeBytes := b.sizeBytes + msg.events.length } }

/-- Modelled from the spec: whether the manager's buffer is empty (used by
`flushAllReadySessions` to decide destruction). -/
def SessionManager.isEmpty (m : SessionManager) : Bool :=
  m.buffer.isEmpty

/-- `HIGH_WATERMARK_KEY`: the fixed partition-global logical key. -/
def HIGH_WATERMARK_KEY : String := "session_replay_blob_ingester"

/-- One stored high-water mark: `(topic, partition, logical_key) → offset`. -/
structure HwmEntry where
  topic : String
  partition : Nat
  key : String
  offset : Nat
  deriving DecidableEq, Repr

/-- An offset committed to the broker (already in the `+1` next-to-read
convention used by `consumer.commit`). -/
structure BrokerCommit where
  topic : String
  partition : Nat
  offset : Nat
  deriving DecidableEq, Repr

/-- The `PartitionMetrics` record kept in `partitionAssignments`. -/
structure PartitionMetrics where
  lastMessageTimestamp : Option Nat
  lastMessageOffset : Option Nat
  lastKnownCommit : Option Nat
  deriving DecidableEq, Repr

/-- The configuration fields the claims depend on: the session flush
thresholds (age, byte size) and
`SESSION_RECORDING_PARTITION_REVOKE_OPTIMIZATION`. -/
structure ConsumerConfig where
  sessionFlushAgeMs : Nat
  sessionFlushSizeBytes : Nat
  partitionRevokeOptimization : Bool
  deriving DecidableEq, Repr

/-- The mutable state of a `SessionRecordingIngesterV2` worker, plus two
observation logs: the broker commits it has issued and the drop causes it
has counted.  The high-water-mark association list models the shared store
backing the `OffsetHighWaterMarker` (its local cache is write-through with
fall-back on miss, hence observationally transparent for one worker). -/
structure ConsumerState where
  config : ConsumerConfig
  sessions : List (String × SessionManager)
  partitionAssignments : List (Nat × PartitionMetrics)
  highWaterMarks : List HwmEntry
  commits : List BrokerCommit
  drops : List DropCause
  deriving DecidableEq, Repr

/-- Record lookup on the sessions map (`this.sessions[key]`). -/
def sessLookup (ss : List (String × SessionManager)) (k : String) :
    Option SessionManager :=
  (ss.find? (fun kv => kv.1 == k)).map (·.2)

/-- In-place update of the manager stored under a key (JS objects are
mutated through the map). -/
def sessUpdate (ss : List (String × SessionManager)) (k : String)
    (f : SessionManager → SessionManager) : List (String × SessionManager) :=
  ss.map (fun kv => if kv.1 == k then (kv.1, f kv.2) else kv)

/-- Record lookup on `partitionAssignments`. -/
def paLookup (pa : List (Nat × PartitionMetrics)) (p : Nat) :
    Option PartitionMetrics :=
  (pa.find? (fun kv => kv.1 == p)).map (·.2)

/-- In-place update of one partition's metrics, a no-op when the partition
is not assigned (mirrors `if (this.partitionAssignments[partition])`). -/
def paUpdate (pa : List (Nat × PartitionMetrics)) (p : Nat)
    (f : PartitionMetrics → PartitionMetrics) : List (Nat × PartitionMetrics) :=
  pa.map (fun kv => if kv.1 == p then (kv.1, f kv.2) else kv)

/-- Whether an entry belongs to `(topic, partition, key)`. -/
def HwmEntry.matches (e : HwmEntry) (t : String) (p : Nat) (k : String) : Bool :=
  e.topic == t && e.partition == p && e.key == k

/-- Mark lookup in the high-water-mark store. -/
def hwmLookup (hwm : List HwmEntry) (t : String) (p : Nat) (k : String) :
    Option Nat :=
  (hwm.find? (fun e => e.matches t p k)).map (·.offset)

/-- Modelled from the spec: `HighWaterMarker.is_below(meta, key, offset)`
is true iff the stored mark is ≥ `offset` (absent mark: false). -/
def isBelowHighWaterMark (hwm : List HwmEntry) (meta : MsgMetadata)
    (k : String) (o : Nat) : Bool :=
  match hwmLookup hwm meta.topic meta.partition k with
  | some m => o ≤ m
  | none => false

/-- Modelled from the spec: `HighWaterMarker.add` monotonically raises the
mark — the final value is ≥ every completed add's argument. -/
def hwmAdd (hwm : List HwmEntry) (t : String) (p : Nat) (k : String) (o : Nat) :
    List HwmEntry :=
  if hwm.any (fun e => e.matches t p k) then
    hwm.map (fun e => if e.matches t p k then { e with offset := max e.offset o } else e)
  else
    hwm ++ [⟨t, p, k, o⟩]

/-- Modelled from the spec: `HighWaterMarker.clear(topic_partition, up_to)`
discards per-session marks (every logical key except the partition-global
one) whose values are ≤ `up_to`. -/
def hwmClear (hwm : List HwmEntry) (t : String) (p : Nat) (upTo : Nat) :
    List HwmEntry :=
  hwm.filter (fun e =>
    !(e.topic == t && e.partition == p && e.key != HIGH_WATERMARK_KEY &&
      e.offset ≤ upTo))

/-- Modelled from the spec: `HighWaterMarker.revoke` forgets only the local
cache; the shared store — what this model tracks — is left intact. -/
def hwmRevoke (hwm : List HwmEntry) (_tp : TopicPartition) : List HwmEntry :=
  hwm

/-- JavaScript truthiness of a possibly-absent number (`0`, `null` and
`undefined` are falsy). -/
def jsTruthyNat : Option Nat → Bool
  | none => false
  | some n => n != 0

/-- JavaScript truthiness of a possibly-absent string (`""`, `null` and
`undefined` are falsy). -/
def jsTruthyStr : Option String → Bool
  | none => false
  | some t => t != ""

/-- The string a missing `$session_id` turns into when interpolated or used
as an object key in JavaScript. -/
def sessionIdStr (msg : IncomingRecordingMessage) : String :=
  msg.session_id.getD "undefined"

/-- The sessions-map key built in `consume`:
`` `${team_id}-${session_id}` ``. -/
def sessionKey (msg : IncomingRecordingMessage) : String :=
  toString msg.team_id ++ "-" ++ sessionIdStr msg

/-- Modelled from the spec: a successful `SessionManager.flush` advances the
high-water marks for the session key and the partition-global key to the
buffer's highest offset, then resets the buffer.  A flush of an empty
buffer is a no-op returning success.  (Uploads always succeed in this
model; a failed upload leaves the whole state unchanged, which is the same
as the no-op branch.) -/
def flushSession (s : ConsumerState) (key : String) : ConsumerState :=
  match sessLookup s.sessions key with
  | none => s
  | some m =>
    match m.buffer.highestOffset with
    | none => s
    | some hi =>
      { s with
        highWaterMarks :=
          hwmAdd (hwmAdd s.highWaterMarks m.topic m.partition m.sessionId hi)
            m.topic m.partition HIGH_WATERMARK_KEY hi
        sessions := sessUpdate s.sessions key
          (fun mm => { mm with buffer := SessionBuffer.reset }) }

/-- Modelled from the spec: `flush_if_old(reference_time_ms)` flushes when
`reference_time_ms - buffer.oldest_timestamp ≥ AGE_LIMIT` or
`buffer.byte_size ≥ SIZE_LIMIT` (`flushIfSessionBufferIsOld`). -/
def flushSessionIfOld (s : ConsumerState) (key : String) (refTime : Nat) :
    ConsumerState :=
  match sessLookup s.sessions key with
  | none => s
  | some m =>
    match m.buffer.oldestKafkaTimestamp with
    | none => s
    | some t0 =>
      if s.config.sessionFlushAgeMs ≤ refTime - t0 ∨
         s.config.sessionFlushSizeBytes ≤ m.buffer.sizeBytes then
        flushSession s key
      else s

/-- `destroySessions`: delete the entries from the sessions map (the
per-manager `destroy()` only cancels work and unlinks temp files, which are
external resources). -/
def destroySessions (s : ConsumerState) (keys : List String) : ConsumerState :=
  { s with sessions := s.sessions.filter (fun kv => !keys.contains kv.1) }

/-- `consume(event)`: drop when the offset is at or below the per-session
mark (`high_water_mark`) or the partition-global mark
(`high_water_mark_partition`); otherwise create the `SessionManager` for
the key if absent and `add` the event to it. -/
def consume (s : ConsumerState) (msg : IncomingRecordingMessage) :
    ConsumerState :=
  let offset := msg.metadata.offset
  if isBelowHighWaterMark s.highWaterMarks msg.metadata (sessionIdStr msg) offset then
    { s with drops := s.drops ++ [DropCause.high_water_mark] }
  else if isBelowHighWaterMark s.highWaterMarks msg.metadata HIGH_WATERMARK_KEY offset then
    { s with drops := s.drops ++ [DropCause.high_water_mark_partition] }
  else
    let key := sessionKey msg
    let s1 :=
      match sessLookup s.sessions key with
      | some _ => s
      | none =>
        { s with
          sessions := s.sessions ++
            [(key,
              ({ teamId := msg.team_id
                 sessionId := sessionIdStr msg
                 partition := msg.metadata.partition
                 topic := msg.metadata.topic
                 buffer := SessionBuffer.reset } : SessionManager))] }
    { s1 with sessions := sessUpdate s1.sessions key (fun m => m.add msg) }

/-- Snapshot-event properties of the inner pipeline event.  A missing or
empty `$snapshot_items` is modelled as `[]` (both are falsy through
`?.length`). -/
structure SnapshotProperties where
  snapshot_items : List Nat
  session_id : Option String
  window_id : Option String
  deriving DecidableEq, Repr

/-- The inner pipeline event parsed from `messagePayload.data`. -/
structure PipelineEvent where
  event : String
  properties : Option SnapshotProperties
  deriving DecidableEq, Repr

/-- The envelope (`RawEventMessage`).  `data = none` models an inner JSON
parse failure. -/
structure RawEventMessage where
  team_id : Option Nat
  token : Option String
  distinct_id : String
  data : Option PipelineEvent
  deriving DecidableEq, Repr

/-- A raw Kafka message.  `value = none` models a null value;
`value = some none` models a value whose outer JSON does not parse. -/
structure KafkaMessage where
  value : Option (Option RawEventMessage)
  timestamp : Option Nat
  topic : String
  partition : Nat
  offset : Nat
  deriving DecidableEq, Repr

/-- `parseKafkaMessage(message, getTeamFn)`: every early return of the
source (empty value/timestamp, invalid JSON at either layer, wrong event
type or empty snapshot list, `team_id == null && !token`, unresolvable
team) yields `none`; otherwise the `IncomingRecordingMessage` is built with
metadata copied from the raw message. -/
def parseKafkaMessage (m : KafkaMessage) (getTeam : String → Option Nat) :
    Option IncomingRecordingMessage :=
  match m.value with
  | none => none
  | some v =>
    if !jsTruthyNat m.timestamp then none
    else
      match v with
      | none => none
      | some payload =>
        match payload.data with
        | none => none
        | some ev =>
          let itemsLen :=
            match ev.properties with
            | some props => props.snapshot_items.length
            | none => 0
          if ev.event != "$snapshot_items" || itemsLen == 0 then none
          else if payload.team_id.isNone && !jsTruthyStr payload.token then none
          else
            let teamId : Option Nat :=
              match payload.token with
              | some tok => if tok != "" then getTeam tok else none
              | none => none
            match teamId with
            | none => none
            | some tid =>
              let meta : MsgMetadata :=
                { topic := m.topic
                  partition := m.partition
                  offset := m.offset
                  timestamp := m.timestamp.getD 0 }
              some
                ({ metadata := meta
                   team_id := tid
                   distinct_id := payload.distinct_id
                   session_id := (ev.properties.bind (·.session_id))
                   window_id := (ev.properties.bind (·.window_id))
                   events :=
                     match ev.properties with
                     | some props => props.snapshot_items
                     | none => [] } : IncomingRecordingMessage)

/-- The exact acceptance condition of `parseKafkaMessage`: a non-null value
and truthy timestamp, both JSON layers parsing, the inner event being
`$snapshot_items` with a non-empty items list, and a non-empty token that
resolves to a team.  (`$session_id` is not required, and a `team_id`
without a token does not suffice.) -/
def parseAccepts (m : KafkaMessage) (getTeam : String → Option Nat) : Prop :=
  ∃ payload ev props tok tid ts,
    m.value = some (some payload) ∧ m.timestamp = some ts ∧ ts ≠ 0 ∧
    payload.data = some ev ∧ ev.event = "$snapshot_items" ∧
    ev.properties = some props ∧ props.snapshot_items ≠ [] ∧
    payload.token = some tok ∧ tok ≠ "" ∧ getTeam tok = some tid

/-- The threshold a candidate session's lowest offset is compared against in
the blocking-session scan:
`potentiallyBlockingSession?.getLowestOffset() || Infinity`.
`none` stands for `Infinity`; note that through `||` a stored lowest offset
of `0` also becomes `Infinity`. -/
def blockingThreshold : Option SessionManager → Option Nat
  | none => none
  | some prev =>
    match prev.getLowestOffset with
    | none => none
    | some pl => if pl == 0 then none else some pl

/-- `l < threshold`, where `none` is `Infinity`. -/
def ltThreshold (l : Nat) : Option Nat → Bool
  | none => true
  | some t => l < t

/-- One step of the scan over `Object.values(this.sessions)` in
`commitOffset` that selects the `potentiallyBlockingSession`. -/
def blockingStep (t : String) (p : Nat) (acc : Option SessionManager)
    (kv : String × SessionManager) : Option SessionManager :=
  if kv.2.partition == p && kv.2.topic == t then
    match kv.2.getLowestOffset with
    | some l => if ltThreshold l (blockingThreshold acc) then some kv.2 else acc
    | none => acc
  else acc

/-- The scan over `Object.values(this.sessions)` in `commitOffset` that
selects the `potentiallyBlockingSession` for a topic-partition. -/
def findBlockingSession (ss : List (String × SessionManager)) (t : String)
    (p : Nat) : Option SessionManager :=
  ss.foldl (blockingStep t p) none

/-- The `highestOffsetToCommit` computed by `commitOffset`: the blocking
session's lowest offset when that is below the message offset, otherwise
the message offset. -/
def computedOffsetToCommit (s : ConsumerState) (t : String) (p : Nat)
    (o : Nat) : Nat :=
  match (findBlockingSession s.sessions t p).bind SessionManager.getLowestOffset with
  | some b => if b < o then b else o
  | none => o

/-- `this.partitionAssignments[partition]?.lastKnownCommit || 0`. -/
def lastKnownCommitOr0 (s : ConsumerState) (p : Nat) : Nat :=
  ((paLookup s.partitionAssignments p).bind (·.lastKnownCommit)).getD 0

/-- The offset value a `commitOffset` call will commit (before the broker's
`+1` convention), or `none` when the gate `lastKnownCommit >=
highestOffsetToCommit` suppresses the commit. -/
def commitEmitted (s : ConsumerState) (t : String) (p : Nat) (o : Nat) :
    Option Nat :=
  let h := computedOffsetToCommit s t p o
  if lastKnownCommitOr0 s p < h then some h else none

/-- `commitOffset(topic, partition, offset)`: find the blocking session,
gate on the last known commit, then record the new last known commit, issue
the broker commit at `highestOffsetToCommit + 1`, raise the
partition-global high-water mark and clear per-session marks at or below
it. -/
def commitOffset (s : ConsumerState) (t : String) (p : Nat) (o : Nat) :
    ConsumerState :=
  let h := computedOffsetToCommit s t p o
  if lastKnownCommitOr0 s p < h then
    let pa1 := paUpdate s.partitionAssignments p
      (fun pm => { pm with lastKnownCommit := some h })
    let hwm1 := hwmAdd s.highWaterMarks t p HIGH_WATERMARK_KEY h
    let hwm2 := hwmClear hwm1 t p h
    { s with
      partitionAssignments := pa1
      commits := s.commits ++ [⟨t, p, h + 1⟩]
      highWaterMarks := hwm2 }
  else s

/-- The per-message metrics update at the top of the `handleEachBatch`
loop: when the message has a (truthy) timestamp and its partition is
assigned, record the last message timestamp and offset and initialise
`lastKnownCommit` to this offset if it was unset (`?? offset`). -/
def updateMetricsForMessage (s : ConsumerState) (m : KafkaMessage) :
    ConsumerState :=
  if jsTruthyNat m.timestamp && (paLookup s.partitionAssignments m.partition).isSome then
    { s with
      partitionAssignments :=
        paUpdate s.partitionAssignments m.partition
          (fun pm =>
            { pm with
              lastMessageTimestamp := m.timestamp
              lastKnownCommit := some (pm.lastKnownCommit.getD m.offset)
              lastMessageOffset := some m.offset }) }
  else s

/-- The first `for` loop of `handleEachBatch`: update metrics for every
message and collect the successfully parsed recording messages in order. -/
def ingestPass (s : ConsumerState) (getTeam : String → Option Nat)
    (messages : List KafkaMessage) :
    ConsumerState × List IncomingRecordingMessage :=
  messages.foldl
    (fun acc m =>
      let s' := updateMetricsForMessage acc.1 m
      match parseKafkaMessage m getTeam with
      | some r => (s', acc.2 ++ [r])
      | none => (s', acc.2))
    (s, [])

/-- Modelled from the spec: `ReplayEventsIngester.consumeBatch` publishes a
compact replay record per message to a downstream topic, gated by the
high-water marker under its own distinct logical key.  It touches none of
the consumer state the claims are about, so it is the identity here. -/
def replayEventsConsumeBatch (s : ConsumerState)
    (_msgs : List IncomingRecordingMessage) : ConsumerState :=
  s

/-- One step of `flushAllReadySessions` for a single session key: skip when
the partition has no truthy `lastMessageTimestamp`, otherwise flush if the
buffer is old or big and destroy the manager if it ended up empty. -/
def flushStep (st : ConsumerState) (key : String) : ConsumerState :=
  match sessLookup st.sessions key with
  | none => st
  | some m =>
    match (paLookup st.partitionAssignments m.partition).bind
        (·.lastMessageTimestamp) with
    | none => st
    | some refTime =>
      if refTime == 0 then st
      else
        match sessLookup (flushSessionIfOld st key refTime).sessions key with
        | some m1 =>
          if m1.isEmpty then destroySessions (flushSessionIfOld st key refTime) [key]
          else flushSessionIfOld st key refTime
        | none => flushSessionIfOld st key refTime

/-- `flushAllReadySessions`: for each session (snapshot of the map at entry)
whose partition has a truthy `lastMessageTimestamp`, flush it if its buffer
is old or big, then destroy it if it ended up empty.  The concurrent
promises of the source are sequentialised in map order. -/
def flushAllReadySessions (s : ConsumerState) : ConsumerState :=
  (s.sessions.map Prod.fst).foldl flushStep s

/-- `handleEachBatch(messages)`: metrics + parse pass, `consume` each parsed
message, attempt a commit for every raw message, hand the parsed batch to
the replay-events ingester, then flush all ready sessions. -/
def handleEachBatch (s : ConsumerState) (getTeam : String → Option Nat)
    (messages : List KafkaMessage) : ConsumerState :=
  let pr := ingestPass s getTeam messages
  let s2 := pr.2.foldl consume pr.1
  let s3 := messages.foldl (fun st m => commitOffset st m.topic m.partition m.offset) s2
  let s4 := replayEventsConsumeBatch s3 pr.2
  flushAllReadySessions s4

/-- The value the source's revoke-sort callback returns for a pair of
sessions: `x.buffer.oldestKafkaTimestamp ?? Infinity` of the FIRST element
only — a one-argument key function where a two-argument comparator is
expected, so the second argument is ignored.  `none` stands for
`Infinity`. -/
def revokeComparator (a _b : SessionManager) : Option Nat :=
  a.buffer.oldestKafkaTimestamp

/-- Whether the comparator result is `> 0` (the "first sorts after second"
answer of a JavaScript comparator). -/
def comparatorPositive : Option Nat → Bool
  | none => true
  | some n => 0 < n

/-- Insertion respecting the JavaScript comparator convention: a positive
comparator result places the inserted element after the probed one.
`Array.prototype.sort` leaves the order implementation-defined for an
inconsistent comparator; this is a deterministic conforming model. -/
def jsInsert (x : String × SessionManager) :
    List (String × SessionManager) → List (String × SessionManager)
  | [] => [x]
  | y :: ys =>
    if comparatorPositive (revokeComparator x.2 y.2) then y :: jsInsert x ys
    else x :: y :: ys

/-- `sessionsToDrop.sort((x) => x.buffer.oldestKafkaTimestamp ?? Infinity)`
modelled as an insertion sort driven by the source's callback. -/
def jsSortSessions : List (String × SessionManager) →
    List (String × SessionManager)
  | [] => []
  | x :: xs => jsInsert x (jsSortSessions xs)

/-- The order in which `onRevokePartitions` initiates
`flush('partition_shutdown')` for the sessions on the revoked
partitions. -/
def revokeFlushOrder (s : ConsumerState) (revoked : List Nat) :
    List (String × SessionManager) :=
  jsSortSessions (s.sessions.filter (fun kv => revoked.contains kv.2.partition))

/-- The revoke-time flush phase: when the partition-revoke optimization is
enabled, flush the sessions to drop in the order produced by the source's
sort. -/
def revokeFlushPhase (s : ConsumerState) (revoked : List Nat) : ConsumerState :=
  if s.config.partitionRevokeOptimization then
    (revokeFlushOrder s revoked).foldl (fun st kv => flushSession st kv.1) s
  else s

/-- `onRevokePartitions(topicPartitions)`: no-op on an empty list; otherwise
flush the sessions on the revoked partitions (when the partition-revoke
optimization is enabled, in the order produced by the source's sort), drop
the revoked partitions' assignment state, revoke the high-water marker's
local state and destroy the dropped sessions. -/
def onRevokePartitions (s : ConsumerState) (tps : List TopicPartition) :
    ConsumerState :=
  let revoked := tps.map (·.partition)
  if revoked.isEmpty then s
  else
    let toDrop := s.sessions.filter (fun kv => revoked.contains kv.2.partition)
    let s1 := revokeFlushPhase s revoked
    let s2 :=
      { s1 with
        partitionAssignments :=
          s1.partitionAssignments.filter (fun kv => !revoked.contains kv.1)
        highWaterMarks :=
          tps.foldl (fun h tp => hwmRevoke h tp) s1.highWaterMarks }
    destroySessions s2 (toDrop.map Prod.fst)

/-! ### Concrete fixtures used by witnesses and counterexamples -/

/-- A baseline configuration: 60 s age limit, 100-unit size limit, revoke
optimization off. -/
def cfgBase : ConsumerConfig := ⟨60000, 100, false⟩

/-- The baseline configuration with the partition-revoke optimization on. -/
def cfgOpt : ConsumerConfig := ⟨60000, 100, true⟩

/-- A session manager for team 7 holding un-flushed offsets `[lo, hi]` of
topic `"t"`. -/
def mkMgr (sid : String) (p lo hi ts : Nat) : SessionManager :=
  ⟨7, sid, p, "t", ⟨some ts, some ts, some lo, some hi, 2, 20⟩⟩

/-- State with two live managers on partition 0 whose lowest un-flushed
offsets are 0 and 5 (in that scan order). -/
def c1State : ConsumerState :=
  { config := cfgBase
    sessions := [("7-s0", mkMgr "s0" 0 0 0 1000), ("7-s5", mkMgr "s5" 0 5 5 1000)]
    partitionAssignments := [(0, ⟨some 1000, some 5, none⟩)]
    highWaterMarks := []
    commits := []
    drops := [] }

/-- State with one live manager on partition 0 whose lowest un-flushed
offset is 100 (scenario S5's straggler session `"d"`). -/
def c2State : ConsumerState :=
  { config := cfgBase
    sessions := [("7-d", mkMgr "d" 0 100 103 1000)]
    partitionAssignments := [(0, ⟨some 1000, some 110, none⟩)]
    highWaterMarks := []
    commits := []
    drops := [] }

/-- State whose high-water marker holds mark 50 for session `"b"` on
`("t", 0)` (scenario S3). -/
def c3State : ConsumerState :=
  { config := cfgBase
    sessions := []
    partitionAssignments := [(0, ⟨some 1000, some 47, some 47⟩)]
    highWaterMarks := [⟨"t", 0, "b", 50⟩]
    commits := []
    drops := [] }

/-- An event for session `"b"` on partition 0 at offset 49, at or below the
stored mark 50. -/
def c3Msg : IncomingRecordingMessage :=
  ⟨⟨"t", 0, 49, 900⟩, 7, "d", some "b", some "w", [1]⟩

/-- A raw message whose envelope carries `team_id = 7` and no token, with a
well-formed non-empty `$snapshot_items` event inside. -/
def c4TeamIdOnlyMsg : KafkaMessage :=
  ⟨some (some ⟨some 7, none, "d",
     some ⟨"$snapshot_items", some ⟨[1], some "s", some "w"⟩⟩⟩),
   some 1000, "t", 0, 5⟩

/-- A raw message whose envelope carries token `"tok"` and no `team_id`. -/
def c4TokenMsg : KafkaMessage :=
  ⟨some (some ⟨none, some "tok", "d",
     some ⟨"$snapshot_items", some ⟨[1], some "s", some "w"⟩⟩⟩),
   some 1000, "t", 0, 5⟩

/-- A token table resolving `"tok"` to team 9. -/
def c4Teams : String → Option Nat :=
  fun tok => if tok == "tok" then some 9 else none

/-- State with sessions on partitions 2 and 3 and assignments for both,
used to witness a revoke of partition 2. -/
def c5State : ConsumerState :=
  { config := cfgOpt
    sessions := [("7-c", mkMgr "c" 2 30 34 1000), ("7-k", mkMgr "k" 3 40 41 1000)]
    partitionAssignments := [(2, ⟨some 1000, some 34, some 29⟩),
                             (3, ⟨some 1000, some 41, some 39⟩)]
    highWaterMarks := []
    commits := []
    drops := [] }

/-- State with two managers on partition 2: the first one's buffer is older
(oldest Kafka timestamp 100) than the second one's (200). -/
def c6State : ConsumerState :=
  { config := cfgOpt
    sessions := [("7-a", mkMgr "a" 2 10 11 100), ("7-b", mkMgr "b" 2 12 13 200)]
    partitionAssignments := [(2, ⟨some 1000, some 13, none⟩)]
    highWaterMarks := []
    commits := []
    drops := [] }

/-- A freshly assigned partition 0: metrics present but all unset, no
sessions, nothing committed. -/
def c7State : ConsumerState :=
  { config := cfgBase
    sessions := []
    partitionAssignments := [(0, ⟨none, none, none⟩)]
    highWaterMarks := []
    commits := []
    drops := [] }

/-- A raw message at the given offset whose value is not valid JSON (so it
fails envelope validation) but which carries a timestamp. -/
def c7BadMsg (o : Nat) : KafkaMessage :=
  ⟨some none, some 1000, "t", 0, o⟩

/-- State with no blocking sessions and a last known commit of 9 on
partition 0, used to witness commit gating across two successive calls. -/
def c8State : ConsumerState :=
  { config := cfgBase
    sessions := []
    partitionAssignments := [(0, ⟨some 1000, some 12, some 9⟩)]
    highWaterMarks := []
    commits := []
    drops := [] }

/-- State used to witness that a successful commit dedupes later replays:
no sessions, stale per-session mark 3 for `"old"`, nothing committed. -/
def c9State : ConsumerState :=
  { config := cfgBase
    sessions := []
    partitionAssignments := [(0, ⟨some 1000, some 12, some 4⟩)]
    highWaterMarks := [⟨"t", 0, "old", 3⟩]
    commits := []
    drops := [] }

/-- A replayed event on `("t", 0)` at offset 11, below the offset 12 about
to be committed. -/
def c9Msg : IncomingRecordingMessage :=
  ⟨⟨"t", 0, 11, 900⟩, 7, "d", some "fresh", some "w", [1]⟩

/-- State with one session whose buffer (size 120 ≥ limit 100) is flushable
against its partition's recorded last message timestamp. -/
def c10State : ConsumerState :=
  { config := cfgBase
    sessions := [("7-x", ⟨7, "x", 0, "t",
      ⟨some 1000, some 1000, some 10, some 12, 3, 120⟩⟩)]
    partitionAssignments := [(0, ⟨some 5000, some 12, some 9⟩)]
    highWaterMarks := []
    commits := []
    drops := [] }

/-! ### Theorems -/

/-! Helper lemmas, shared by several claim proofs. -/

/-- `consume` drops an event (leaving the sessions map untouched) whenever
its offset is at or below the per-session or the partition-global stored
mark. -/
theorem consume_drop_helper (s : ConsumerState)
    (msg : IncomingRecordingMessage)
    (h : (∃ m, hwmLookup s.highWaterMarks msg.metadata.topic
            msg.metadata.partition (sessionIdStr msg) = some m ∧
            msg.metadata.offset ≤ m) ∨
         (∃ m, hwmLookup s.highWaterMarks msg.metadata.topic
            msg.metadata.partition HIGH_WATERMARK_KEY = some m ∧
            msg.metadata.offset ≤ m)) :
    (consume s msg).sessions = s.sessions ∧
    ((consume s msg).drops = s.drops ++ [DropCause.high_water_mark] ∨
     (consume s msg).drops = s.drops ++ [DropCause.high_water_mark_partition]) := by
  have hb : isBelowHighWaterMark s.highWaterMarks msg.metadata
        (sessionIdStr msg) msg.metadata.offset = true ∨
      isBelowHighWaterMark s.highWaterMarks msg.metadata
        HIGH_WATERMARK_KEY msg.metadata.offset = true := by
    rcases h with ⟨m, hm, hle⟩ | ⟨m, hm, hle⟩
    · left
      simp only [isBelowHighWaterMark, hm, decide_eq_true_eq]
      exact hle
    · right
      simp only [isBelowHighWaterMark, hm, decide_eq_true_eq]
      exact hle
  by_cases h1 : isBelowHighWaterMark s.highWaterMarks msg.metadata
      (sessionIdStr msg) msg.metadata.offset = true
  · simp [consume, h1]
  · have h2 : isBelowHighWaterMark s.highWaterMarks msg.metadata
        HIGH_WATERMARK_KEY msg.metadata.offset = true := by
      rcases hb with hb | hb
      · exact absurd hb h1
      · exact hb
    simp [consume, h1, h2]

/-- Lookup after updating one partition's metrics. -/
theorem paLookup_paUpdate_self (pa : List (Nat × PartitionMetrics)) (p : Nat)
    (f : PartitionMetrics → PartitionMetrics) :
    paLookup (paUpdate pa p f) p = (paLookup pa p).map f := by
  induction pa with
  | nil => rfl
  | cons kv rest ih =>
    by_cases h : kv.1 = p
    · simp [paLookup, paUpdate, List.find?, h]
    · have hb : (kv.1 == p) = false := by simpa using h
      simp only [paUpdate, List.map_cons, hb, if_false] at ih ⊢
      simpa [paLookup, List.find?, hb] using ih

/-- `commitOffset` when the gate passes: the explicit resulting state. -/
theorem commitOffset_eq_of_emit (s : ConsumerState) (t : String) (p : Nat)
    (o : Nat) (c : Nat) (hc : commitEmitted s t p o = some c) :
    commitOffset s t p o =
      { s with
        partitionAssignments :=
          paUpdate s.partitionAssignments p
            (fun pm => { pm with lastKnownCommit := some c })
        commits := s.commits ++ [⟨t, p, c + 1⟩]
        highWaterMarks :=
          hwmClear (hwmAdd s.highWaterMarks t p HIGH_WATERMARK_KEY c) t p c } := by
  unfold commitEmitted at hc
  by_cases hlt : lastKnownCommitOr0 s p < computedOffsetToCommit s t p o
  · simp only [hlt, if_true, Option.some.injEq] at hc
    subst hc
    unfold commitOffset
    simp [hlt]
  · simp [hlt] at hc

/-- `commitOffset` when the gate suppresses the commit: the state is
unchanged. -/
theorem commitOffset_eq_of_skip (s : ConsumerState) (t : String) (p : Nat)
    (o : Nat) (hc : commitEmitted s t p o = none) :
    commitOffset s t p o = s := by
  unfold commitEmitted at hc
  by_cases hlt : lastKnownCommitOr0 s p < computedOffsetToCommit s t p o
  · simp [hlt] at hc
  · unfold commitOffset
    simp [hlt]

/-- What an emitted commit value is: above the old last known commit and
equal to the computed offset to commit. -/
theorem commitEmitted_some_iff (s : ConsumerState) (t : String) (p : Nat)
    (o : Nat) (c : Nat) :
    commitEmitted s t p o = some c ↔
      (lastKnownCommitOr0 s p < c ∧ c = computedOffsetToCommit s t p o) := by
  unfold commitEmitted
  by_cases hlt : lastKnownCommitOr0 s p < computedOffsetToCommit s t p o
  · simp only [hlt, if_true, Option.some.injEq]
    constructor
    · rintro rfl
      exact ⟨hlt, rfl⟩
    · rintro ⟨_, rfl⟩
      rfl
  · simp only [hlt, if_false]
    constructor
    · rintro h
      exact absurd h (by simp)
    · rintro ⟨hlt', rfl⟩
      exact absurd hlt' hlt

/-- Raising an existing mark: the first matching entry's value becomes at
least the added offset. -/
theorem hwmLookup_map_raise (t : String) (p : Nat) (k : String) (o : Nat) :
    ∀ hwm : List HwmEntry, hwm.any (fun e => e.matches t p k) = true →
      ∃ m, hwmLookup
          (hwm.map (fun e =>
            if e.matches t p k then { e with offset := max e.offset o } else e))
          t p k = some m ∧ o ≤ m := by
  intro hwm
  induction hwm with
  | nil => intro hany; simp at hany
  | cons e rest ih =>
    intro hany
    by_cases he : e.matches t p k = true
    · refine ⟨max e.offset o, ?_, le_max_right _ _⟩
      have hmod : (({ e with offset := max e.offset o } : HwmEntry).matches t p k) = true := by
        simpa [HwmEntry.matches] using he
      simp [hwmLookup, he, List.find?_cons_of_pos, hmod]
    · have he' : e.matches t p k = false := by simpa using he
      have h' : rest.any (fun e => e.matches t p k) = true := by
        simpa [he'] using hany
      obtain ⟨m, hm, hom⟩ := ih h'
      refine ⟨m, ?_, hom⟩
      simpa [hwmLookup, he', List.find?_cons_of_neg] using hm

/-- Appending a fresh mark: when no entry matches, the appended entry is
found. -/
theorem hwmLookup_append_fresh (t : String) (p : Nat) (k : String) (o : Nat) :
    ∀ hwm : List HwmEntry, hwm.any (fun e => e.matches t p k) = false →
      hwmLookup (hwm ++ [⟨t, p, k, o⟩]) t p k = some o := by
  intro hwm
  induction hwm with
  | nil =>
    intro _
    simp [hwmLookup, List.find?, HwmEntry.matches]
  | cons e rest ih =>
    intro hany
    simp only [List.any_cons, Bool.or_eq_false_iff] at hany
    obtain ⟨he, hrest⟩ := hany
    simpa [hwmLookup, he, List.find?_cons_of_neg] using ih hrest

/-- After `hwmAdd` the mark for the added key is at least the added
offset. -/
theorem hwmLookup_hwmAdd_self (hwm : List HwmEntry) (t : String) (p : Nat)
    (k : String) (o : Nat) :
    ∃ m, hwmLookup (hwmAdd hwm t p k o) t p k = some m ∧ o ≤ m := by
  unfold hwmAdd
  by_cases hany : hwm.any (fun e => e.matches t p k) = true
  · simp only [hany, if_true]
    exact hwmLookup_map_raise t p k o hwm hany
  · have hany' : hwm.any (fun e => e.matches t p k) = false := by
      simpa using hany
    simp only [hany', Bool.false_eq_true, if_false]
    exact ⟨o, hwmLookup_append_fresh t p k o hwm hany', le_refl o⟩

/-- The Bool condition under which `hwmClear` removes an entry. -/
def clearCond (t : String) (p : Nat) (u : Nat) (e : HwmEntry) : Bool :=
  e.topic == t && e.partition == p && e.key != HIGH_WATERMARK_KEY &&
    decide (e.offset ≤ u)

/-- `hwmClear` unfolded through the removal condition. -/
theorem hwmClear_eq_filter (hwm : List HwmEntry) (t : String) (p : Nat)
    (u : Nat) :
    hwmClear hwm t p u = hwm.filter (fun e => !clearCond t p u e) := rfl

/-- `hwmClear` never touches the partition-global mark. -/
theorem hwmLookup_hwmClear_hwk (hwm : List HwmEntry) (t : String) (p : Nat)
    (u : Nat) :
    hwmLookup (hwmClear hwm t p u) t p HIGH_WATERMARK_KEY =
      hwmLookup hwm t p HIGH_WATERMARK_KEY := by
  rw [hwmClear_eq_filter]
  induction hwm with
  | nil => rfl
  | cons e rest ih =>
    rw [List.filter_cons]
    by_cases hrm : clearCond t p u e = true
    · have hkey : (e.key == HIGH_WATERMARK_KEY) = false := by
        have := hrm
        unfold clearCond at this
        simp only [Bool.and_eq_true] at this
        simpa using this.1.2
      have hmatch : e.matches t p HIGH_WATERMARK_KEY = false := by
        simp [HwmEntry.matches, hkey]
      simp only [hrm, Bool.not_true, Bool.false_eq_true, if_false]
      rw [ih]
      simp [hwmLookup, hmatch, List.find?_cons_of_neg]
    · have hrm' : clearCond t p u e = false := by simpa using hrm
      simp only [hrm', Bool.not_false, if_true]
      by_cases hm : e.matches t p HIGH_WATERMARK_KEY = true
      · simp [hwmLookup, hm, List.find?_cons_of_pos]
      · have hm' : e.matches t p HIGH_WATERMARK_KEY = false := by simpa using hm
        simpa [hwmLookup, hm', List.find?_cons_of_neg] using ih

/-- Every per-session mark surviving `hwmClear` is above the cleared
bound. -/
theorem hwmClear_bound (hwm : List HwmEntry) (t : String) (p : Nat) (u : Nat)
    (k : String) (v : Nat) (hk : k ≠ HIGH_WATERMARK_KEY)
    (h : hwmLookup (hwmClear hwm t p u) t p k = some v) : u < v := by
  unfold hwmLookup at h
  obtain ⟨e, he, hev⟩ : ∃ e, (hwmClear hwm t p u).find?
      (fun e => e.matches t p k) = some e ∧ e.offset = v := by
    cases hfind : (hwmClear hwm t p u).find? (fun e => e.matches t p k) with
    | none => simp [hfind] at h
    | some e =>
      refine ⟨e, rfl, ?_⟩
      simp [hfind] at h
      exact h
  have hpred := List.find?_some he
  have hmem : e ∈ hwmClear hwm t p u := List.mem_of_find?_eq_some he
  rw [hwmClear_eq_filter] at hmem
  have hfilter : (!clearCond t p u e) = true := (List.mem_filter.mp hmem).2
  have hcond : clearCond t p u e = false := by simpa using hfilter
  simp only [HwmEntry.matches, Bool.and_eq_true, beq_iff_eq] at hpred
  obtain ⟨⟨het, hep⟩, hek⟩ := hpred
  unfold clearCond at hcond
  rw [het, hep, hek] at hcond
  simp only [beq_self_eq_true, Bool.true_and, bne_iff_ne, ne_eq] at hcond
  rw [Bool.and_eq_false_iff] at hcond
  rcases hcond with hf | hf
  · have : k = HIGH_WATERMARK_KEY := by simpa using hf
    exact absurd this hk
  · have : ¬ (e.offset ≤ u) := by simpa using hf
    omega

/-- A session flush touches only the high-water marks and the sessions
map. -/
theorem flushSession_frame (s : ConsumerState) (key : String) :
    (flushSession s key).commits = s.commits ∧
    (flushSession s key).partitionAssignments = s.partitionAssignments := by
  unfold flushSession
  split
  · exact ⟨rfl, rfl⟩
  · split
    · exact ⟨rfl, rfl⟩
    · exact ⟨rfl, rfl⟩

/-- A conditional session flush touches only the high-water marks and the
sessions map. -/
theorem flushSessionIfOld_frame (s : ConsumerState) (key : String)
    (refTime : Nat) :
    (flushSessionIfOld s key refTime).commits = s.commits ∧
    (flushSessionIfOld s key refTime).partitionAssignments =
      s.partitionAssignments := by
  unfold flushSessionIfOld
  split
  · exact ⟨rfl, rfl⟩
  · split
    · exact ⟨rfl, rfl⟩
    · split
      · exact flushSession_frame _ _
      · exact ⟨rfl, rfl⟩

/-- One step of the end-of-batch flush pass issues no commit and never
touches the partition assignments. -/
theorem flushStep_frame (s : ConsumerState) (key : String) :
    (flushStep s key).commits = s.commits ∧
    (flushStep s key).partitionAssignments = s.partitionAssignments := by
  unfold flushStep
  split
  · exact ⟨rfl, rfl⟩
  · split
    · exact ⟨rfl, rfl⟩
    · split
      · exact ⟨rfl, rfl⟩
      · split
        · split
          · unfold destroySessions
            exact flushSessionIfOld_frame s key _
          · exact flushSessionIfOld_frame s key _
        · exact flushSessionIfOld_frame s key _

/-- The whole end-of-batch flush pass issues no commit and never touches
the partition assignments. -/
theorem flushAllReadySessions_frame (s : ConsumerState) :
    (flushAllReadySessions s).commits = s.commits ∧
    (flushAllReadySessions s).partitionAssignments =
      s.partitionAssignments := by
  unfold flushAllReadySessions
  generalize (s.sessions.map Prod.fst) = keys
  induction keys generalizing s with
  | nil => exact ⟨rfl, rfl⟩
  | cons k ks ih =>
    simp only [List.foldl_cons]
    obtain ⟨h1, h2⟩ := ih (flushStep s k)
    obtain ⟨g1, g2⟩ := flushStep_frame s k
    exact ⟨h1.trans g1, h2.trans g2⟩

/-- The key/partition skeleton of the sessions map: what survives any
in-place manager update. -/
def sessShape (ss : List (String × SessionManager)) : List (String × Nat) :=
  ss.map (fun kv => (kv.1, kv.2.partition))

/-- In-place updates that preserve a manager's partition preserve the
skeleton. -/
theorem sessUpdate_shape (ss : List (String × SessionManager)) (k : String)
    (f : SessionManager → SessionManager)
    (hf : ∀ m, (f m).partition = m.partition) :
    sessShape (sessUpdate ss k f) = sessShape ss := by
  unfold sessShape sessUpdate
  rw [List.map_map]
  apply List.map_congr_left
  intro kv _
  by_cases h : (kv.1 == k) = true
  · simp [Function.comp, h, hf]
  · have h' : (kv.1 == k) = false := by simpa using h
    simp [Function.comp, h']

/-- Flushing a session preserves the sessions skeleton. -/
theorem flushSession_shape (s : ConsumerState) (key : String) :
    sessShape (flushSession s key).sessions = sessShape s.sessions := by
  unfold flushSession
  split
  · rfl
  · split
    · rfl
    · exact sessUpdate_shape s.sessions key
        (fun mm => { mm with buffer := SessionBuffer.reset }) (fun _ => rfl)

/-- The revoke-time flush fold preserves the sessions skeleton. -/
theorem foldl_flushSession_shape (l : List (String × SessionManager)) :
    ∀ s : ConsumerState,
      sessShape ((l.foldl (fun st kv => flushSession st kv.1) s).sessions) =
        sessShape s.sessions := by
  induction l with
  | nil => intro s; rfl
  | cons kv rest ih =>
    intro s
    simp only [List.foldl_cons]
    exact (ih (flushSession s kv.1)).trans (flushSession_shape s kv.1)

/-- The revoke-time flush fold only touches high-water marks and session
buffers. -/
theorem foldl_flushSession_frame (l : List (String × SessionManager)) :
    ∀ s : ConsumerState,
      (l.foldl (fun st kv => flushSession st kv.1) s).commits = s.commits ∧
      (l.foldl (fun st kv => flushSession st kv.1) s).partitionAssignments =
        s.partitionAssignments := by
  induction l with
  | nil => intro s; exact ⟨rfl, rfl⟩
  | cons kv rest ih =>
    intro s
    simp only [List.foldl_cons]
    obtain ⟨h1, h2⟩ := ih (flushSession s kv.1)
    obtain ⟨g1, g2⟩ := flushSession_frame s kv.1
    exact ⟨h1.trans g1, h2.trans g2⟩

/-- The revoke-time flush phase preserves the sessions skeleton. -/
theorem revokeFlushPhase_shape (s : ConsumerState) (revoked : List Nat) :
    sessShape (revokeFlushPhase s revoked).sessions = sessShape s.sessions := by
  unfold revokeFlushPhase
  split
  · exact foldl_flushSession_shape _ s
  · rfl

/-- The revoke-time flush phase preserves commits and partition
assignments. -/
theorem revokeFlushPhase_frame (s : ConsumerState) (revoked : List Nat) :
    (revokeFlushPhase s revoked).commits = s.commits ∧
    (revokeFlushPhase s revoked).partitionAssignments =
      s.partitionAssignments := by
  unfold revokeFlushPhase
  split
  · exact foldl_flushSession_frame _ s
  · exact ⟨rfl, rfl⟩

/-- C1.  In the blocking-session scan,
`potentiallyBlockingSession?.getLowestOffset() || Infinity` turns a stored
lowest offset of `0` into `Infinity`, so a session holding un-flushed
offset 0 is displaced by any later-scanned session: with live managers at
lowest offsets 0 and 5 and a batch message at offset 10, `commitOffset`
commits 5 (broker offset 6) — past the live manager still holding offset 0
— refuting the claim that the committed value is at most the minimum
`getLowestOffset()` over live managers on the partition. -/
theorem commitOffset_advances_past_unflushed_offset_zero :
    (commitOffset c1State "t" 0 10).commits = [⟨"t", 0, 6⟩] ∧
    lastKnownCommitOr0 (commitOffset c1State "t" 0 10) 0 = 5 ∧
    sessLookup (commitOffset c1State "t" 0 10).sessions "7-s0" =
      some (mkMgr "s0" 0 0 0 1000) ∧
    (mkMgr "s0" 0 0 0 1000).getLowestOffset = some 0 ∧ ¬ (5 ≤ 0) :=
  ⟨rfl, rfl, rfl, rfl, by decide⟩

/-- C2.  When the blocking session's lowest un-flushed offset (100) is
below the batch message offset (110), `commitOffset` sets
`highestOffsetToCommit` to that lowest offset itself and commits broker
offset 101, so after the call the live manager's lowest un-flushed offset
equals the last committed offset — refuting
`lowest_offset ≥ last committed + 1`. -/
theorem commitOffset_commits_exactly_lowest_unflushed :
    (commitOffset c2State "t" 0 110).commits = [⟨"t", 0, 101⟩] ∧
    lastKnownCommitOr0 (commitOffset c2State "t" 0 110) 0 = 100 ∧
    sessLookup (commitOffset c2State "t" 0 110).sessions "7-d" =
      some (mkMgr "d" 0 100 103 1000) ∧
    (mkMgr "d" 0 100 103 1000).getLowestOffset = some 100 ∧
    ¬ (100 + 1 ≤ 100) :=
  ⟨rfl, rfl, rfl, rfl, by decide⟩

/-- C6.  The revoke-time sort callback is a one-argument key function, not
a comparator: for sessions with oldest Kafka timestamps 100 and 200 (in
that map order, both on revoked partition 2) the resulting flush order is
newest first — the session with the smaller timestamp is flushed second,
refuting the oldest-first ordering. -/
theorem revoke_flush_order_not_oldest_first :
    (revokeFlushOrder c6State [2]).map
        (fun kv => kv.2.buffer.oldestKafkaTimestamp) =
      [some 200, some 100] ∧ (100 : Nat) < 200 :=
  ⟨rfl, by decide⟩

/-- C4 counterexample.  A payload carrying `team_id = 7` and no token —
with a non-empty value and timestamp, both JSON layers parsing, a
well-formed non-empty `$snapshot_items` event and a `$session_id` — is
rejected by `parseKafkaMessage` (the source only resolves teams through
the token), refuting the claim that it parses successfully. -/
theorem parseKafkaMessage_drops_team_id_without_token :
    c4TeamIdOnlyMsg.value =
      some (some ⟨some 7, none, "d",
        some ⟨"$snapshot_items", some ⟨[1], some "s", some "w"⟩⟩⟩) ∧
    parseKafkaMessage c4TeamIdOnlyMsg c4Teams = none :=
  ⟨rfl, rfl⟩

/-- C7 counterexample.  A batch consisting of a single invalid message (at
offset 5, with a timestamp) on a freshly assigned partition issues no
commit at all: the metrics pass initialises `lastKnownCommit` to the first
seen offset, so the commit for that same offset is gated off — refuting
the claim that the batch commits the batch's max offset plus one. -/
theorem single_invalid_batch_issues_no_commit :
    parseKafkaMessage (c7BadMsg 5) (fun _ => none) = none ∧
    (handleEachBatch c7State (fun _ => none) [c7BadMsg 5]).commits = [] ∧
    lastKnownCommitOr0 (handleEachBatch c7State (fun _ => none) [c7BadMsg 5]) 0 = 5 :=
  ⟨rfl, rfl, rfl⟩

/-- C10 counterexample.  `handleEachBatch` runs `flushAllReadySessions`
even for an empty batch: from a state holding a session whose buffer
exceeds the size threshold, processing the empty batch flushes and
destroys that session, so the sessions map changes — refuting "no state
change". -/
theorem empty_batch_flushes_ready_sessions :
    (handleEachBatch c10State (fun _ => none) []).sessions ≠
      c10State.sessions ∧
    (handleEachBatch c10State (fun _ => none) []).sessions = [] := by
  constructor
  · decide
  · rfl

/-- C3.  If an incoming event's offset is at or below the stored mark for
its session id, or at or below the stored mark for the partition-global
key, `consume` records a drop with cause `high_water_mark` or
`high_water_mark_partition` and leaves the sessions map unchanged — no
`SessionManager` is created and no `add` is performed. -/
theorem consume_drops_at_or_below_high_water_marks (s : ConsumerState)
    (msg : IncomingRecordingMessage)
    (h : (∃ m, hwmLookup s.highWaterMarks msg.metadata.topic
            msg.metadata.partition (sessionIdStr msg) = some m ∧
            msg.metadata.offset ≤ m) ∨
         (∃ m, hwmLookup s.highWaterMarks msg.metadata.topic
            msg.metadata.partition HIGH_WATERMARK_KEY = some m ∧
            msg.metadata.offset ≤ m)) :
    (consume s msg).sessions = s.sessions ∧
    ((consume s msg).drops = s.drops ++ [DropCause.high_water_mark] ∨
     (consume s msg).drops = s.drops ++ [DropCause.high_water_mark_partition]) :=
  consume_drop_helper s msg h

/-- C8.  A `commitOffset` call appends a broker commit at the computed
offset plus 1 exactly when the computed offset exceeds the partition's
last known commit; an emitted commit value exceeds the old last known
commit and (for an assigned partition) becomes the new last known commit,
so the values emitted by two successive calls on an assigned partition are
strictly increasing. -/
theorem commitOffset_gating_strictly_monotonic (s : ConsumerState)
    (t : String) (p : Nat) (o : Nat) :
    (commitOffset s t p o).commits =
      (s.commits ++ (match commitEmitted s t p o with
        | some c => [⟨t, p, c + 1⟩]
        | none => [])) ∧
    (∀ c, commitEmitted s t p o = some c →
      lastKnownCommitOr0 s p < c ∧
      ((paLookup s.partitionAssignments p).isSome →
        lastKnownCommitOr0 (commitOffset s t p o) p = c)) ∧
    (∀ o₂ c₁ c₂, commitEmitted s t p o = some c₁ →
      commitEmitted (commitOffset s t p o) t p o₂ = some c₂ →
      (paLookup s.partitionAssignments p).isSome → c₁ < c₂) := by
  have hupd : ∀ c, commitEmitted s t p o = some c →
      (paLookup s.partitionAssignments p).isSome →
      lastKnownCommitOr0 (commitOffset s t p o) p = c := by
    intro c hc hsome
    rw [commitOffset_eq_of_emit s t p o c hc]
    obtain ⟨pm, hpm⟩ : ∃ pm, paLookup s.partitionAssignments p = some pm := by
      cases hpa : paLookup s.partitionAssignments p with
      | none => rw [hpa] at hsome; simp at hsome
      | some pm => exact ⟨pm, rfl⟩
    unfold lastKnownCommitOr0
    simp only [paLookup_paUpdate_self, hpm, Option.map_some]
    rfl
  refine ⟨?_, ?_, ?_⟩
  · cases hc : commitEmitted s t p o with
    | none => rw [commitOffset_eq_of_skip s t p o hc, List.append_nil]
    | some c => rw [commitOffset_eq_of_emit s t p o c hc]
  · intro c hc
    exact ⟨((commitEmitted_some_iff s t p o c).mp hc).1, hupd c hc⟩
  · intro o₂ c₁ c₂ hc₁ hc₂ hsome
    have h1 : lastKnownCommitOr0 (commitOffset s t p o) p = c₁ := hupd c₁ hc₁ hsome
    have h2 := ((commitEmitted_some_iff (commitOffset s t p o) t p o₂ c₂).mp hc₂).1
    rw [h1] at h2
    exact h2

/-- C8 witness: from a last known commit of 9, a call computing offset 12
emits broker commit 13 and records 12; a successive call computing 15
emits again, and 12 < 15. -/
theorem commitOffset_gating_strictly_monotonic_witness :
    (commitOffset c8State "t" 0 12).commits = c8State.commits ++ [⟨"t", 0, 13⟩] ∧
    lastKnownCommitOr0 c8State 0 < 12 ∧
    lastKnownCommitOr0 (commitOffset c8State "t" 0 12) 0 = 12 ∧
    (12 : Nat) < 15 := by
  obtain ⟨h1, h2, h3⟩ := commitOffset_gating_strictly_monotonic c8State "t" 0 12
  obtain ⟨h21, h22⟩ := h2 12 rfl
  refine ⟨h1, h21, h22 rfl, ?_⟩
  exact h3 15 12 15 rfl rfl rfl

/-- C9.  A `commitOffset` call that emits a commit at value `c` raises the
partition-global high-water mark for the topic-partition to at least `c`,
leaves no per-session mark at or below `c`, and consequently any later
event on that topic-partition with offset ≤ `c` is dropped by `consume`
with a high-water-mark cause and without touching the sessions map. -/
theorem commitOffset_raises_partition_mark_and_dedupes (s : ConsumerState)
    (t : String) (p : Nat) (o : Nat) (c : Nat)
    (hc : commitEmitted s t p o = some c) :
    (∃ m, hwmLookup (commitOffset s t p o).highWaterMarks t p
        HIGH_WATERMARK_KEY = some m ∧ c ≤ m) ∧
    (∀ k v, k ≠ HIGH_WATERMARK_KEY →
      hwmLookup (commitOffset s t p o).highWaterMarks t p k = some v →
      c < v) ∧
    (∀ msg : IncomingRecordingMessage, msg.metadata.topic = t →
      msg.metadata.partition = p → msg.metadata.offset ≤ c →
      (consume (commitOffset s t p o) msg).sessions =
        (commitOffset s t p o).sessions ∧
      ((consume (commitOffset s t p o) msg).drops =
          (commitOffset s t p o).drops ++ [DropCause.high_water_mark] ∨
       (consume (commitOffset s t p o) msg).drops =
          (commitOffset s t p o).drops ++ [DropCause.high_water_mark_partition])) := by
  have hhwm : (commitOffset s t p o).highWaterMarks =
      hwmClear (hwmAdd s.highWaterMarks t p HIGH_WATERMARK_KEY c) t p c := by
    rw [commitOffset_eq_of_emit s t p o c hc]
  obtain ⟨m, hm, hcm⟩ :=
    hwmLookup_hwmAdd_self s.highWaterMarks t p HIGH_WATERMARK_KEY c
  have hmark : hwmLookup (commitOffset s t p o).highWaterMarks t p
      HIGH_WATERMARK_KEY = some m := by
    rw [hhwm, hwmLookup_hwmClear_hwk]
    exact hm
  refine ⟨⟨m, hmark, hcm⟩, ?_, ?_⟩
  · intro k v hk hv
    rw [hhwm] at hv
    exact hwmClear_bound _ t p c k v hk hv
  · intro msg hmt hmp hmo
    refine consume_drop_helper (commitOffset s t p o) msg (Or.inr ?_)
    rw [hmt, hmp]
    exact ⟨m, hmark, le_trans hmo hcm⟩

/-- C9 witness: committing offset 12 on `("t", 0)` (no blocking sessions,
last known commit 4) raises the partition mark to ≥ 12, clears the stale
per-session mark 3, and the replayed event at offset 11 is then dropped
without touching the sessions map. -/
theorem commitOffset_raises_partition_mark_and_dedupes_witness :
    (∃ m, hwmLookup (commitOffset c9State "t" 0 12).highWaterMarks "t" 0
        HIGH_WATERMARK_KEY = some m ∧ 12 ≤ m) ∧
    (consume (commitOffset c9State "t" 0 12) c9Msg).sessions =
      (commitOffset c9State "t" 0 12).sessions := by
  obtain ⟨h1, _h2, h3⟩ :=
    commitOffset_raises_partition_mark_and_dedupes c9State "t" 0 12 12 rfl
  exact ⟨h1, (h3 c9Msg rfl rfl (by decide)).1⟩

/-- C3 witness: with mark 50 stored for session `"b"` on `("t", 0)`, the
event for `"b"` at offset 49 is dropped with no session created. -/
theorem consume_drops_at_or_below_high_water_marks_witness :
    (consume c3State c3Msg).sessions = c3State.sessions ∧
    ((consume c3State c3Msg).drops =
        c3State.drops ++ [DropCause.high_water_mark] ∨
     (consume c3State c3Msg).drops =
        c3State.drops ++ [DropCause.high_water_mark_partition]) :=
  consume_drops_at_or_below_high_water_marks c3State c3Msg
    (Or.inl ⟨50, rfl, by decide⟩)

/-- Truthiness of an optional number, unpacked. -/
theorem jsTruthyNat_iff (o : Option Nat) :
    jsTruthyNat o = true ↔ ∃ ts, o = some ts ∧ ts ≠ 0 := by
  cases o <;> simp [jsTruthyNat]

/-- C4 (amended).  `parseKafkaMessage` returns a message if and only if the
raw message has a non-null value and truthy timestamp, both JSON layers
parse, the inner event is `$snapshot_items` with a non-empty
`$snapshot_items` array, and the envelope carries a non-empty token that
resolves to a team; any deviation yields no message.  A `team_id` without a
token does not suffice, a missing `$session_id` is not checked, and a
returned message's metadata equals the raw message's topic, partition,
offset and timestamp. -/
theorem parseKafkaMessage_accepts_iff (m : KafkaMessage) (getTeam : String → Option Nat) :
    ((parseKafkaMessage m getTeam).isSome ↔ parseAccepts m getTeam) ∧
    (∀ r, parseKafkaMessage m getTeam = some r →
      r.metadata = ⟨m.topic, m.partition, m.offset, m.timestamp.getD 0⟩) := by
  cases hval : m.value with
  | none =>
    refine ⟨⟨fun hs => ?_, fun ha => ?_⟩, fun r hr => ?_⟩
    · simp [parseKafkaMessage, hval] at hs
    · obtain ⟨payload, ev, props, tok, tid, ts, hv, _⟩ := ha
      rw [hval] at hv
      exact Option.noConfusion hv
    · simp [parseKafkaMessage, hval] at hr
  | some v =>
    by_cases hts : jsTruthyNat m.timestamp = true
    case neg =>
      have hts' : jsTruthyNat m.timestamp = false := by simpa using hts
      refine ⟨⟨fun hs => ?_, fun ha => ?_⟩, fun r hr => ?_⟩
      · simp [parseKafkaMessage, hval, hts'] at hs
      · obtain ⟨payload, ev, props, tok, tid, ts, hv, hT, hT0, _⟩ := ha
        rw [jsTruthyNat_iff] at hts
        exact absurd ⟨ts, hT, hT0⟩ hts
      · simp [parseKafkaMessage, hval, hts'] at hr
    case pos =>
      cases v with
      | none =>
        refine ⟨⟨fun hs => ?_, fun ha => ?_⟩, fun r hr => ?_⟩
        · simp [parseKafkaMessage, hval, hts] at hs
        · obtain ⟨payload, ev, props, tok, tid, ts, hv, _⟩ := ha
          rw [hval] at hv
          simp at hv
        · simp [parseKafkaMessage, hval, hts] at hr
      | some payload =>
        cases hdata : payload.data with
        | none =>
          refine ⟨⟨fun hs => ?_, fun ha => ?_⟩, fun r hr => ?_⟩
          · simp [parseKafkaMessage, hval, hts, hdata] at hs
          · obtain ⟨payload', ev, props, tok, tid, ts, hv, hT, hT0, hd, _⟩ := ha
            rw [hval] at hv
            simp at hv
            subst hv
            rw [hdata] at hd
            exact Option.noConfusion hd
          · simp [parseKafkaMessage, hval, hts, hdata] at hr
        | some ev =>
          by_cases hc1 : (ev.event != "$snapshot_items" ||
              ((match ev.properties with
                | some props => props.snapshot_items.length
                | none => 0) == 0)) = true
          case pos =>
            refine ⟨⟨fun hs => ?_, fun ha => ?_⟩, fun r hr => ?_⟩
            · simp [parseKafkaMessage, hval, hts, hdata, hc1] at hs
            · obtain ⟨payload', ev', props, tok, tid, ts, hv, hT, hT0, hd, hevn, hprops, hitems, _⟩ := ha
              rw [hval] at hv
              simp at hv
              subst hv
              rw [hdata] at hd
              simp at hd
              subst hd
              rw [hevn, hprops] at hc1
              simp at hc1
              exact absurd hc1 hitems
            · simp [parseKafkaMessage, hval, hts, hdata, hc1] at hr
          case neg =>
            have hc1' : (ev.event != "$snapshot_items" ||
                ((match ev.properties with
                  | some props => props.snapshot_items.length
                  | none => 0) == 0)) = false := by simpa using hc1
            simp only [Bool.or_eq_false_iff] at hc1'
            obtain ⟨hevn', hlen'⟩ := hc1'
            have hevn : ev.event = "$snapshot_items" := by simpa using hevn'
            obtain ⟨props, hprops⟩ : ∃ props, ev.properties = some props := by
              cases hp : ev.properties with
              | none => rw [hp] at hlen'; simp at hlen'
              | some props => exact ⟨props, rfl⟩
            have hitems : props.snapshot_items ≠ [] := by
              rw [hprops] at hlen'
              simpa using hlen'
            by_cases htok : jsTruthyStr payload.token = true
            case pos =>
              obtain ⟨tok, hTok, htokne⟩ : ∃ tok, payload.token = some tok ∧ tok ≠ "" := by
                cases hT : payload.token with
                | none => rw [hT] at htok; simp [jsTruthyStr] at htok
                | some t =>
                  refine ⟨t, rfl, ?_⟩
                  rw [hT] at htok
                  simpa [jsTruthyStr] using htok
              cases hteam : getTeam tok with
              | none =>
                refine ⟨⟨fun hs => ?_, fun ha => ?_⟩, fun r hr => ?_⟩
                · simp [parseKafkaMessage, hval, hts, hdata, hc1, hTok, htok,
                    htokne, hteam] at hs
                · obtain ⟨payload', ev', props', tok', tid, ts, hv, hT, hT0, hd,
                    hevn2, hprops2, hitems2, hTok2, htokne2, hteam2⟩ := ha
                  rw [hval] at hv
                  simp at hv
                  subst hv
                  rw [hTok] at hTok2
                  simp at hTok2
                  subst hTok2
                  rw [hteam] at hteam2
                  exact Option.noConfusion hteam2
                · simp [parseKafkaMessage, hval, hts, hdata, hc1, hTok, htok,
                    htokne, hteam] at hr
              | some tid =>
                obtain ⟨ts, hT, hT0⟩ := (jsTruthyNat_iff m.timestamp).mp hts
                refine ⟨⟨fun _ => ?_, fun _ => ?_⟩, fun r hr => ?_⟩
                · exact ⟨payload, ev, props, tok, tid, ts, hval, hT, hT0, hdata,
                    hevn, hprops, hitems, hTok, htokne, hteam⟩
                · simp [parseKafkaMessage, hval, hts, hdata, hc1, hTok, htokne,
                    hteam, jsTruthyStr]
                · simp [parseKafkaMessage, hval, hts, hdata, hc1, hTok, htokne,
                    hteam, jsTruthyStr] at hr
                  rw [← hr]
            case neg =>
              have hnone : parseKafkaMessage m getTeam = none := by
                have htok' : jsTruthyStr payload.token = false := by simpa using htok
                cases hT : payload.token with
                | none =>
                  by_cases hid : payload.team_id.isNone = true
                  · simp [parseKafkaMessage, hval, hts, hdata, hc1, hT, hid, jsTruthyStr]
                  · simp [parseKafkaMessage, hval, hts, hdata, hc1, hT, hid, jsTruthyStr]
                | some t =>
                  have hte : t = "" := by
                    rw [hT] at htok'
                    simpa [jsTruthyStr] using htok'
                  subst hte
                  by_cases hid : payload.team_id.isNone = true
                  · simp [parseKafkaMessage, hval, hts, hdata, hc1, hT, hid, jsTruthyStr]
                  · simp [parseKafkaMessage, hval, hts, hdata, hc1, hT, hid, jsTruthyStr]
              refine ⟨⟨fun hs => ?_, fun ha => ?_⟩, fun r hr => ?_⟩
              · rw [hnone] at hs
                simp at hs
              · obtain ⟨payload', ev', props', tok', tid, ts, hv, hT, hT0, hd,
                  hevn2, hprops2, hitems2, hTok2, htokne2, hteam2⟩ := ha
                rw [hval] at hv
                simp at hv
                subst hv
                rw [hTok2] at htok
                simp [jsTruthyStr] at htok
                exact absurd htok htokne2
              · rw [hnone] at hr
                exact Option.noConfusion hr

/-- C4 witness: a payload with token `"tok"` resolving to team 9 and a
well-formed snapshot event satisfies the acceptance condition and parses
successfully. -/
theorem parseKafkaMessage_accepts_iff_witness :
    (parseKafkaMessage c4TokenMsg c4Teams).isSome ∧
    parseAccepts c4TokenMsg c4Teams := by
  have ha : parseAccepts c4TokenMsg c4Teams :=
    ⟨_, _, _, "tok", 9, 1000, rfl, rfl, by decide, rfl, rfl, rfl, by decide,
      rfl, by decide, rfl⟩
  exact ⟨(parseKafkaMessage_accepts_iff c4TokenMsg c4Teams).1.mpr ha, ha⟩


/-- `onRevokePartitions` on a non-empty revoke set, unfolded. -/
theorem onRevokePartitions_eq (s : ConsumerState) (tps : List TopicPartition)
    (hne : ((tps.map (·.partition)).isEmpty) = false) :
    onRevokePartitions s tps =
      destroySessions
        { revokeFlushPhase s (tps.map (·.partition)) with
          partitionAssignments :=
            (revokeFlushPhase s (tps.map (·.partition))).partitionAssignments.filter
              (fun kv => !(tps.map (·.partition)).contains kv.1)
          highWaterMarks :=
            tps.foldl (fun hh tp => hwmRevoke hh tp)
              (revokeFlushPhase s (tps.map (·.partition))).highWaterMarks }
        ((s.sessions.filter
            (fun kv => (tps.map (·.partition)).contains kv.2.partition)).map
          Prod.fst) := by
  unfold onRevokePartitions
  simp only [hne, Bool.false_eq_true, if_false]

/-- C5.  After `onRevokePartitions` with a non-empty set of
topic-partitions, no `SessionManager` whose partition is in the revoked
set remains in the sessions map, and `partitionAssignments` has no entry
for any revoked partition. -/
theorem onRevokePartitions_clears_partition_state (s : ConsumerState)
    (tps : List TopicPartition) (h : tps ≠ []) :
    (∀ kv ∈ (onRevokePartitions s tps).sessions,
      ¬ kv.2.partition ∈ tps.map (·.partition)) ∧
    (∀ tp ∈ tps,
      paLookup (onRevokePartitions s tps).partitionAssignments
        tp.partition = none) := by
  have hne : ((tps.map (·.partition)).isEmpty) = false := by
    cases tps with
    | nil => exact absurd rfl h
    | cons a l => rfl
  rw [onRevokePartitions_eq s tps hne]
  constructor
  · intro kv hkv hpart
    have hkv' : kv ∈ ((revokeFlushPhase s (tps.map (·.partition))).sessions).filter
        (fun kv => !((s.sessions.filter
            (fun kv => (tps.map (·.partition)).contains kv.2.partition)).map
          Prod.fst).contains kv.1) := by
      simpa [destroySessions] using hkv
    obtain ⟨hmem, hpred⟩ := List.mem_filter.mp hkv'
    have hshape : (kv.1, kv.2.partition) ∈ sessShape s.sessions := by
      have hmm : (kv.1, kv.2.partition) ∈
          sessShape (revokeFlushPhase s (tps.map (·.partition))).sessions :=
        List.mem_map_of_mem _ hmem
      rwa [revokeFlushPhase_shape] at hmm
    obtain ⟨kv0, hkv0mem, hkv0eq⟩ := List.mem_map.mp hshape
    have hp := Prod.ext_iff.mp hkv0eq
    have h1 : kv0.1 = kv.1 := hp.1
    have h2 : kv0.2.partition = kv.2.partition := hp.2
    have hdrop : kv0 ∈ s.sessions.filter
        (fun kv => (tps.map (·.partition)).contains kv.2.partition) := by
      refine List.mem_filter.mpr ⟨hkv0mem, ?_⟩
      rw [h2]
      simpa using hpart
    have hkeys : kv.1 ∈ (s.sessions.filter
        (fun kv => (tps.map (·.partition)).contains kv.2.partition)).map
          Prod.fst := by
      rw [← h1]
      exact List.mem_map_of_mem _ hdrop
    have hcont : ((s.sessions.filter
        (fun kv => (tps.map (·.partition)).contains kv.2.partition)).map
          Prod.fst).contains kv.1 = true := by
      simpa using hkeys
    rw [hcont] at hpred
    simp at hpred
  · intro tp htp
    have hfind : (((revokeFlushPhase s (tps.map (·.partition))).partitionAssignments.filter
        (fun kv => !(tps.map (·.partition)).contains kv.1)).find?
          (fun kv => kv.1 == tp.partition)) = none := by
      rw [List.find?_eq_none]
      intro x hx hbeq
      have hxf := (List.mem_filter.mp hx).2
      have hx1 : x.1 = tp.partition := by simpa using hbeq
      have hmemrev : x.1 ∈ tps.map (·.partition) := by
        rw [hx1]
        exact List.mem_map_of_mem _ htp
      have : (tps.map (·.partition)).contains x.1 = true := by simpa using hmemrev
      rw [this] at hxf
      simp at hxf
    simp only [destroySessions, paLookup]
    rw [hfind]
    rfl

/-- C5 witness: revoking partition 2 removes the session on partition 2 and
its assignment entry. -/
theorem onRevokePartitions_clears_partition_state_witness :
    (∀ kv ∈ (onRevokePartitions c5State [⟨"t", 2⟩]).sessions,
      ¬ kv.2.partition ∈ ([⟨"t", 2⟩] : List TopicPartition).map (·.partition)) ∧
    (∀ tp ∈ ([⟨"t", 2⟩] : List TopicPartition),
      paLookup (onRevokePartitions c5State [⟨"t", 2⟩]).partitionAssignments
        tp.partition = none) :=
  onRevokePartitions_clears_partition_state c5State [⟨"t", 2⟩] (by decide)

/-- C10 (amended).  Processing an empty batch issues no offset commit and
leaves `partitionAssignments` unchanged (the unconditional end-of-batch
flush pass may still flush or destroy ready sessions, so the sessions map,
buffers and high-water marks can change). -/
theorem handleEachBatch_empty_no_commit (s : ConsumerState)
    (getTeam : String → Option Nat) :
    (handleEachBatch s getTeam []).commits = s.commits ∧
    (handleEachBatch s getTeam []).partitionAssignments =
      s.partitionAssignments := by
  have h : handleEachBatch s getTeam [] = flushAllReadySessions s := rfl
  rw [h]
  exact flushAllReadySessions_frame s

/-- The metrics update touches only `partitionAssignments`. -/
theorem updateMetricsForMessage_frame (s : ConsumerState) (m : KafkaMessage) :
    (updateMetricsForMessage s m).sessions = s.sessions ∧
    (updateMetricsForMessage s m).commits = s.commits := by
  unfold updateMetricsForMessage
  split
  · exact ⟨rfl, rfl⟩
  · exact ⟨rfl, rfl⟩

/-- The metrics pass touches only `partitionAssignments`. -/
theorem metricsFold_frame (msgs : List KafkaMessage) :
    ∀ s : ConsumerState,
      (msgs.foldl updateMetricsForMessage s).sessions = s.sessions ∧
      (msgs.foldl updateMetricsForMessage s).commits = s.commits := by
  induction msgs with
  | nil => intro s; exact ⟨rfl, rfl⟩
  | cons m rest ih =>
    intro s
    simp only [List.foldl_cons]
    obtain ⟨h1, h2⟩ := ih (updateMetricsForMessage s m)
    obtain ⟨g1, g2⟩ := updateMetricsForMessage_frame s m
    exact ⟨h1.trans g1, h2.trans g2⟩

/-- The metrics update on an assigned partition with a truthy timestamp:
`lastKnownCommit` is initialised via `?? offset`. -/
theorem updateMetricsForMessage_sets_lkc (s : ConsumerState) (m : KafkaMessage)
    (pm : PartitionMetrics) (hpa : paLookup s.partitionAssignments m.partition = some pm)
    (hts : jsTruthyNat m.timestamp = true) :
    paLookup (updateMetricsForMessage s m).partitionAssignments m.partition =
      some { pm with
        lastMessageTimestamp := m.timestamp
        lastKnownCommit := some (pm.lastKnownCommit.getD m.offset)
        lastMessageOffset := some m.offset } := by
  have hc : (jsTruthyNat m.timestamp &&
      (paLookup s.partitionAssignments m.partition).isSome) = true := by
    simp [hts, hpa]
  unfold updateMetricsForMessage
  rw [if_pos hc]
  rw [paLookup_paUpdate_self, hpa]
  rfl

/-- Once set, `lastKnownCommit` survives the rest of the metrics pass
(`?? offset` keeps the existing value). -/
theorem metricsFold_keeps_lkc (P : Nat) (k : Nat) :
    ∀ (msgs : List KafkaMessage) (s : ConsumerState),
      (∀ m ∈ msgs, m.partition = P) →
      ((paLookup s.partitionAssignments P).bind (·.lastKnownCommit)) = some k →
      ((paLookup (msgs.foldl updateMetricsForMessage s).partitionAssignments P).bind
        (·.lastKnownCommit)) = some k := by
  intro msgs
  induction msgs with
  | nil => intro s _ hk; exact hk
  | cons m rest ih =>
    intro s hall hk
    simp only [List.foldl_cons]
    obtain ⟨pm, hpm, hlkc⟩ : ∃ pm, paLookup s.partitionAssignments P = some pm ∧
        pm.lastKnownCommit = some k := by
      cases hpa : paLookup s.partitionAssignments P with
      | none => rw [hpa] at hk; simp at hk
      | some pm =>
        rw [hpa] at hk
        exact ⟨pm, rfl, hk⟩
    have hmp : m.partition = P := (hall m (List.mem_cons_self m rest))
    refine ih (updateMetricsForMessage s m)
      (fun x hx => hall x (List.mem_cons_of_mem m hx)) ?_
    by_cases hc : (jsTruthyNat m.timestamp &&
        (paLookup s.partitionAssignments m.partition).isSome) = true
    · have hts : jsTruthyNat m.timestamp = true := by
        simp only [Bool.and_eq_true] at hc
        exact hc.1
      have hset := updateMetricsForMessage_sets_lkc s m pm
        (by rw [hmp]; exact hpm) hts
      rw [hmp] at hset
      rw [hset]
      simp [hlkc]
    · have hc2 : updateMetricsForMessage s m = s := by
        unfold updateMetricsForMessage
        rw [if_neg hc]
      rw [hc2, hpm]
      simpa using hlkc

/-- A session on another topic-partition never becomes the blocking
session. -/
theorem blockingStep_skip (T : String) (P : Nat) (acc : Option SessionManager)
    (kv : String × SessionManager)
    (h : ¬ (kv.2.topic = T ∧ kv.2.partition = P)) :
    blockingStep T P acc kv = acc := by
  have hcond : (kv.2.partition == P && kv.2.topic == T) = false := by
    by_cases hp : kv.2.partition = P
    · have ht : ¬ kv.2.topic = T := fun ht => h ⟨ht, hp⟩
      simp [ht]
    · simp [hp]
  simp [blockingStep, hcond]

/-- With no session on the topic-partition, the blocking-session scan
returns its accumulator. -/
theorem findBlockingSession_none (T : String) (P : Nat) :
    ∀ (ss : List (String × SessionManager)) (acc : Option SessionManager),
      (∀ kv ∈ ss, ¬(kv.2.topic = T ∧ kv.2.partition = P)) →
      ss.foldl (blockingStep T P) acc = acc := by
  intro ss
  induction ss with
  | nil => intro acc _; rfl
  | cons kv rest ih =>
    intro acc h
    simp only [List.foldl_cons]
    rw [blockingStep_skip T P acc kv (h kv (List.mem_cons_self kv rest))]
    exact ih acc (fun x hx => h x (List.mem_cons_of_mem kv hx))

/-- With no blocking session the computed offset to commit is the message
offset itself. -/
theorem computed_no_blocking (st : ConsumerState) (T : String) (P : Nat)
    (o : Nat) (h : findBlockingSession st.sessions T P = none) :
    computedOffsetToCommit st T P o = o := by
  unfold computedOffsetToCommit
  rw [h]
  rfl

/-- The per-message commit loop over messages on one topic-partition with
strictly increasing offsets, all above the last known commit, with no
blocking sessions: every message emits its broker commit. -/
theorem commitFold_all_emit (T : String) (P : Nat) :
    ∀ (msgs : List KafkaMessage) (st : ConsumerState) (mprev : KafkaMessage),
      (∀ m ∈ msgs, m.topic = T ∧ m.partition = P) →
      (∀ kv ∈ st.sessions, ¬(kv.2.topic = T ∧ kv.2.partition = P)) →
      ((paLookup st.partitionAssignments P).bind (·.lastKnownCommit)) =
        some mprev.offset →
      List.Chain (fun a b => a.offset < b.offset) mprev msgs →
      (msgs.foldl (fun st m => commitOffset st m.topic m.partition m.offset)
          st).commits =
        st.commits ++ msgs.map (fun m => (⟨T, P, m.offset + 1⟩ : BrokerCommit)) := by
  intro msgs
  induction msgs with
  | nil =>
    intro st mprev _ _ _ _
    simp
  | cons m rest ih =>
    intro st mprev hall hsess hk hchain
    obtain ⟨hmt, hmp⟩ := hall m (List.mem_cons_self m rest)
    obtain ⟨pm, hpm, hlkc⟩ : ∃ pm, paLookup st.partitionAssignments P = some pm ∧
        pm.lastKnownCommit = some mprev.offset := by
      cases hpa : paLookup st.partitionAssignments P with
      | none => rw [hpa] at hk; simp at hk
      | some pm =>
        rw [hpa] at hk
        exact ⟨pm, rfl, hk⟩
    have hlk0 : lastKnownCommitOr0 st P = mprev.offset := by
      unfold lastKnownCommitOr0
      rw [hpm]
      simp [hlkc]
    have hblock : findBlockingSession st.sessions T P = none :=
      findBlockingSession_none T P st.sessions none hsess
    have hcomp : computedOffsetToCommit st T P m.offset = m.offset :=
      computed_no_blocking st T P m.offset hblock
    have hlt := List.rel_of_chain_cons hchain
    have hemit : commitEmitted st T P m.offset = some m.offset := by
      unfold commitEmitted
      rw [hcomp, hlk0, if_pos hlt]
    have hco := commitOffset_eq_of_emit st T P m.offset m.offset hemit
    simp only [List.foldl_cons]
    rw [hmt, hmp, hco]
    have hrec := ih
      { st with
        partitionAssignments :=
          paUpdate st.partitionAssignments P
            (fun pm => { pm with lastKnownCommit := some m.offset })
        commits := st.commits ++ [⟨T, P, m.offset + 1⟩]
        highWaterMarks :=
          hwmClear (hwmAdd st.highWaterMarks T P HIGH_WATERMARK_KEY m.offset)
            T P m.offset }
      m (fun x hx => hall x (List.mem_cons_of_mem m hx)) hsess ?_ ?_
    · rw [hrec]
      simp [List.append_assoc]
    · rw [paLookup_paUpdate_self, hpm]
      rfl
    · exact List.chain_of_chain_cons hchain

/-- The metrics-and-parse pass over messages that all fail parsing yields
no recording messages and only the metrics updates. -/
theorem ingestPass_all_invalid (getTeam : String → Option Nat) :
    ∀ (msgs : List KafkaMessage) (s : ConsumerState)
      (acc : List IncomingRecordingMessage),
      (∀ m ∈ msgs, parseKafkaMessage m getTeam = none) →
      msgs.foldl
        (fun acc m =>
          let sx := updateMetricsForMessage acc.1 m
          match parseKafkaMessage m getTeam with
          | some r => (sx, acc.2 ++ [r])
          | none => (sx, acc.2))
        (s, acc) =
      (msgs.foldl updateMetricsForMessage s, acc) := by
  intro msgs
  induction msgs with
  | nil => intro s acc _; rfl
  | cons m rest ih =>
    intro s acc hall
    have hm : parseKafkaMessage m getTeam = none :=
      hall m (List.mem_cons_self m rest)
    simp only [List.foldl_cons, hm]
    exact ih (updateMetricsForMessage s m) acc
      (fun x hx => hall x (List.mem_cons_of_mem m hx))

/-- C7 (amended).  For a batch of at least two messages on partition `P`
of topic `T`, all carrying timestamps and all failing envelope validation,
on a freshly assigned partition (`lastKnownCommit` unset) with no live
manager on `(T, P)`: processing the batch emits broker commits for every
message after the first, ending at the batch's max offset plus one (the
first message's offset initialises `lastKnownCommit`, so its own commit is
gated off — a single-message batch on a fresh partition commits nothing,
as the counterexample shows). -/
theorem invalid_batch_commits_max_offset_plus_one (s : ConsumerState) (getTeam : String → Option Nat)
    (T : String) (P : Nat) (m0 m1 : KafkaMessage) (rest : List KafkaMessage)
    (pm : PartitionMetrics)
    (hpa : paLookup s.partitionAssignments P = some pm)
    (hlkc : pm.lastKnownCommit = none)
    (hall : ∀ m ∈ m0 :: m1 :: rest,
      m.topic = T ∧ m.partition = P ∧ jsTruthyNat m.timestamp = true ∧
      parseKafkaMessage m getTeam = none)
    (hinc : List.Chain (fun a b => a.offset < b.offset) m0 (m1 :: rest))
    (hnosess : ∀ kv ∈ s.sessions, ¬ (kv.2.topic = T ∧ kv.2.partition = P)) :
    (handleEachBatch s getTeam (m0 :: m1 :: rest)).commits =
      s.commits ++ (m1 :: rest).map (fun m => (⟨T, P, m.offset + 1⟩ : BrokerCommit)) := by
  have hred : handleEachBatch s getTeam (m0 :: m1 :: rest) =
      flushAllReadySessions
        ((m0 :: m1 :: rest).foldl
          (fun st m => commitOffset st m.topic m.partition m.offset)
          (((ingestPass s getTeam (m0 :: m1 :: rest)).2).foldl consume
            ((ingestPass s getTeam (m0 :: m1 :: rest)).1))) := rfl
  have hip : ingestPass s getTeam (m0 :: m1 :: rest) =
      ((m0 :: m1 :: rest).foldl updateMetricsForMessage s, []) := by
    unfold ingestPass
    exact ingestPass_all_invalid getTeam (m0 :: m1 :: rest) s []
      (fun m hm => (hall m hm).2.2.2)
  rw [hred, hip]
  simp only [List.foldl_nil]
  rw [(flushAllReadySessions_frame _).1]
  set SM := (m0 :: m1 :: rest).foldl updateMetricsForMessage s with hSMdef
  obtain ⟨hm0t, hm0p, hm0ts, _⟩ := hall m0 (List.mem_cons_self m0 (m1 :: rest))
  have hSM : ((paLookup SM.partitionAssignments P).bind (·.lastKnownCommit)) =
      some m0.offset := by
    rw [hSMdef]
    simp only [List.foldl_cons]
    refine metricsFold_keeps_lkc P m0.offset (m1 :: rest)
      (updateMetricsForMessage s m0)
      (fun x hx => (hall x (List.mem_cons_of_mem m0 hx)).2.1) ?_
    have hset := updateMetricsForMessage_sets_lkc s m0 pm
      (by rw [hm0p]; exact hpa) hm0ts
    rw [hm0p] at hset
    rw [hset]
    simp [hlkc]
  have hSMsess : SM.sessions = s.sessions := (metricsFold_frame _ s).1
  have hSMcommits : SM.commits = s.commits := (metricsFold_frame _ s).2
  have hnosess2 : ∀ kv ∈ SM.sessions,
      ¬ (kv.2.topic = T ∧ kv.2.partition = P) := by
    rw [hSMsess]; exact hnosess
  have hskip : commitOffset SM m0.topic m0.partition m0.offset = SM := by
    rw [hm0t, hm0p]
    refine commitOffset_eq_of_skip _ T P m0.offset ?_
    unfold commitEmitted
    have hcomp := computed_no_blocking SM T P m0.offset
      (findBlockingSession_none T P _ none hnosess2)
    have hlk0 : lastKnownCommitOr0 SM P = m0.offset := by
      unfold lastKnownCommitOr0
      rw [hSM]
      rfl
    rw [hcomp, hlk0]
    simp
  have hstep1 : (m0 :: m1 :: rest).foldl
      (fun st m => commitOffset st m.topic m.partition m.offset) SM =
      (m1 :: rest).foldl
        (fun st m => commitOffset st m.topic m.partition m.offset)
        (commitOffset SM m0.topic m0.partition m0.offset) := rfl
  rw [hstep1, hskip]
  rw [commitFold_all_emit T P (m1 :: rest) SM m0
    (fun x hx => ⟨(hall x (List.mem_cons_of_mem m0 hx)).1,
      (hall x (List.mem_cons_of_mem m0 hx)).2.1⟩)
    hnosess2 hSM hinc]
  rw [hSMcommits]

/-- C7 witness: two invalid messages at offsets 5 and 7 on the freshly
assigned partition 0 lead to a single broker commit at 8 = max + 1. -/
theorem invalid_batch_commits_max_offset_plus_one_witness :
    (handleEachBatch c7State (fun _ => none) [c7BadMsg 5, c7BadMsg 7]).commits =
      c7State.commits ++ [⟨"t", 0, 8⟩] := by
  refine invalid_batch_commits_max_offset_plus_one c7State (fun _ => none) "t" 0
    (c7BadMsg 5) (c7BadMsg 7) [] ⟨none, none, none⟩ rfl rfl ?_ ?_ ?_
  · intro m hm
    simp only [List.mem_cons, List.not_mem_nil, or_false] at hm
    rcases hm with rfl | rfl
    · exact ⟨rfl, rfl, rfl, rfl⟩
    · exact ⟨rfl, rfl, rfl, rfl⟩
  · exact List.Chain.cons (by decide) List.Chain.nil
  · intro kv hkv
    simp [c7State] at hkv

end SessionRecording
